import Mathlib

/-!
Verification of the valutatrade_hub exchange-rate cache-and-refresh subsystem.

Shallow embedding of the Python sources:
  - core/currencies.py   : currency registry and lookup
  - core/usecases.py     : ExchangeRateService.get_rate and its stub fallback
  - parser_service/storage.py : RatesStorage.save_current_rates / save_historical_record
  - parser_service/updater.py : RatesUpdater.run_update
  - parser_service/api_clients.py : BaseApiClient._make_request retry loop
  - infra/database.py    : DatabaseManager.write_data temp-file/replace discipline

Python floats are modelled as rationals (the claims never exercise float
rounding), timestamps as integers counting seconds, and Python dicts as
insertion-ordered association lists.
-/

namespace ValutaTrade

/-- Python `str.upper()` on the ASCII strings this system handles: uppercase
every character.  (Defined over the character list so that it reduces in the
kernel; `String.toUpper` itself is position-based and does not.) -/
def upperString (s : String) : String := String.mk (s.data.map Char.toUpper)

/-- Python `str.replace(t, "")` for a one-character needle: drop every
occurrence of `target`. -/
def removeChar (target : Char) (s : String) : String :=
  String.mk (s.data.filter fun c => c != target)

/-- Python `str.replace(t, r)` for one-character needle and replacement. -/
def replaceChar (target repl : Char) (s : String) : String :=
  String.mk (s.data.map fun c => if c = target then repl else c)

/-- Helper for `splitOnChar`: `acc` holds the current chunk reversed. -/
def splitOnCharAux (sep : Char) : List Char → List Char → List String
  | [], acc => [String.mk acc.reverse]
  | c :: rest, acc =>
    if c = sep then String.mk acc.reverse :: splitOnCharAux sep rest []
    else splitOnCharAux sep rest (c :: acc)

/-- Python `str.split(sep)` for a one-character separator. -/
def splitOnChar (sep : Char) (s : String) : List String :=
  splitOnCharAux sep s.data []

/-- Python dict read: `d[k]` / `k in d` for a string-keyed dict modelled as an
insertion-ordered association list. -/
def dictGet {α : Type} (k : String) : List (String × α) → Option α
  | [] => none
  | (k₀, v₀) :: rest => if k₀ = k then some v₀ else dictGet k rest

/-- Python dict write: `d[k] = v` — replaces the existing binding in place, or
appends a new binding at the end, as Python dicts do. -/
def dictSet {α : Type} (k : String) (v : α) : List (String × α) → List (String × α)
  | [] => [(k, v)]
  | (k₀, v₀) :: rest => if k₀ = k then (k, v) :: rest else (k₀, v₀) :: dictSet k v rest

/-! ## core/currencies.py -/

/-- A registered currency: `FiatCurrency` or `CryptoCurrency`
(core/currencies.py lines 44-77). -/
inductive Currency : Type where
  | fiat (name code issuingCountry : String)
  | crypto (name code algorithm : String) (marketCap : ℚ)
deriving DecidableEq

/-- `_currency_registry` after `_initialize_currencies()` has run
(core/currencies.py lines 104-121): nine currencies keyed by upper-case code. -/
def currencyRegistry : List (String × Currency) :=
  [ ("USD", .fiat "US Dollar" "USD" "United States")
  , ("EUR", .fiat "Euro" "EUR" "Eurozone")
  , ("RUB", .fiat "Russian Ruble" "RUB" "Russia")
  , ("GBP", .fiat "British Pound" "GBP" "United Kingdom")
  , ("JPY", .fiat "Japanese Yen" "JPY" "Japan")
  , ("BTC", .crypto "Bitcoin" "BTC" "SHA-256" 1.12e12)
  , ("ETH", .crypto "Ethereum" "ETH" "Ethash" 4.5e11)
  , ("LTC", .crypto "Litecoin" "LTC" "Scrypt" 6.5e9)
  , ("ADA", .crypto "Cardano" "ADA" "Ouroboros" 1.5e10) ]

/-- Errors that `ExchangeRateService.get_rate` can raise. `currencyNotFound`
is `CurrencyNotFoundError(code)` (core/exceptions.py line 12);
`attributeErrorNoUpdateRate` is the Python `AttributeError` raised at
usecases.py line 278, where `get_rate` calls `self._update_rate(...)` although
the class defines no method of that name (the refresh helper at line 280 was
itself named `_get_stub_rate` and is shadowed by the second `_get_stub_rate`
definition at line 293). -/
inductive GetRateError : Type where
  | currencyNotFound (code : String)
  | attributeErrorNoUpdateRate
deriving DecidableEq

/-- `get_currency(code)` (core/currencies.py lines 89-94): upper-cases the code,
raises `CurrencyNotFoundError` when it is not registered. -/
def getCurrency (code : String) : Except GetRateError Currency :=
  match dictGet (upperString code) currencyRegistry with
  | some c => .ok c
  | none => .error (.currencyNotFound (upperString code))

/-- `code` resolves in the registry (i.e. `get_currency(code)` succeeds). -/
def isRegistered (code : String) : Bool :=
  (dictGet (upperString code) currencyRegistry).isSome

/-! ## core/usecases.py — ExchangeRateService -/

/-- One value of the `self.rates` dict: `{"rate": r, "updated_at": iso, "source": s}`.
`updatedAt = none` models a missing or unparseable `updated_at` field (both are
treated identically by `get_rate`, lines 270-276); `source = none` models a dict
without a `"source"` key. -/
structure RateEntry : Type where
  rate : ℚ
  updatedAt : Option Int
  source : Option String
deriving DecidableEq

/-- The in-memory rates cache `self.rates`. -/
abbrev RatesCache := List (String × RateEntry)

/-- Models `return self._update_rate(from_currency, to_currency)` at
usecases.py line 278.  The class dictionary of `ExchangeRateService` contains no
`_update_rate`: the refresh helper (lines 280-292) was declared as
`_get_stub_rate` and then shadowed by the second `def _get_stub_rate`
(lines 293-310), so attribute lookup fails and Python raises `AttributeError`. -/
def updateRateCall : Except GetRateError (RateEntry × RatesCache) :=
  .error .attributeErrorNoUpdateRate

/-- `ExchangeRateService.get_rate(from_currency, to_currency)`
(usecases.py lines 249-278), with the service state passed explicitly:
`rates` is `self.rates`, `ttl` is `self.rates_ttl`
(`settings.get('rates_ttl_seconds', 300)`), `now` is `datetime.datetime.now()`.
On the non-raising paths the (unchanged) cache is returned alongside the
result dict. -/
def getRate (fromCurrency toCurrency : String) (rates : RatesCache)
    (ttl now : Int) : Except GetRateError (RateEntry × RatesCache) :=
  match getCurrency fromCurrency with
  | .error e => .error e
  | .ok _ =>
    match getCurrency toCurrency with
    | .error e => .error e
    | .ok _ =>
      let f := upperString fromCurrency
      let t := upperString toCurrency
      if f = t then
        .ok ({ rate := 1, updatedAt := some now, source := none }, rates)
      else
        match dictGet (f ++ "_" ++ t) rates with
        | some rateData =>
          match rateData.updatedAt with
          | some u => if now - u < ttl then .ok (rateData, rates) else updateRateCall
          | none => updateRateCall
        | none => updateRateCall

/-- The static stub table built inside the surviving `_get_stub_rate`
(usecases.py lines 294-305); every entry's `updated_at` is the moment of the
call. -/
def stubRates (now : Int) : List (String × RateEntry) :=
  [ ("USD_EUR", { rate := 0.85, updatedAt := some now, source := none })
  , ("EUR_USD", { rate := 1.18, updatedAt := some now, source := none })
  , ("USD_BTC", { rate := 0.00001685, updatedAt := some now, source := none })
  , ("BTC_USD", { rate := 59337.21, updatedAt := some now, source := none })
  , ("USD_ETH", { rate := 0.000269, updatedAt := some now, source := none })
  , ("ETH_USD", { rate := 3720.00, updatedAt := some now, source := none })
  , ("USD_RUB", { rate := 98.42, updatedAt := some now, source := none })
  , ("RUB_USD", { rate := 0.01016, updatedAt := some now, source := none })
  , ("EUR_BTC", { rate := 0.0000142, updatedAt := some now, source := none })
  , ("BTC_EUR", { rate := 70500.00, updatedAt := some now, source := none }) ]

/-- The surviving `_get_stub_rate(from_currency, to_currency)`
(usecases.py lines 293-310): direct lookup in the static table, `None` when the
pair is absent — there is no inverse-pair derivation. -/
def getStubRate (fromCurrency toCurrency : String) (now : Int) : Option RateEntry :=
  dictGet (fromCurrency ++ "_" ++ toCurrency) (stubRates now)

/-- Body of the shadowed first `_get_stub_rate` (usecases.py lines 280-292) —
the refresh helper that `get_rate` line 278 evidently meant to reach as
`_update_rate`: fetch the stub rate, store it under `f"{from}_{to}"`, save, and
return it; raise `ApiRequestError` (modelled as a message string) when the stub
has no direct entry. -/
def updateRateShadowedBody (fromCurrency toCurrency : String)
    (rates : RatesCache) (now : Int) : Except String (RateEntry × RatesCache) :=
  match getStubRate fromCurrency toCurrency now with
  | some rateData =>
    .ok (rateData, dictSet (fromCurrency ++ "_" ++ toCurrency) rateData rates)
  | none => .error "курс не найден в заглушке"

/-! ## parser_service/storage.py — RatesStorage -/

/-- One value of the `rates.json` cache as written by
`RatesStorage.save_current_rates` (storage.py lines 28-32):
`{"rate": r, "updated_at": iso, "source": s}`. -/
structure StoredRate : Type where
  rate : ℚ
  updatedAt : String
  source : String
deriving DecidableEq

/-- `RatesStorage.save_current_rates(rates, source)` (storage.py lines 12-38),
taking the pre-existing cache and the call time explicitly.  A stored entry is
touched only when the pair is new, its source differs, or its rate value
differs; the updated-entry count is returned alongside the new cache. -/
def saveCurrentRatesAux (source nowIso : String) :
    List (String × ℚ) → List (String × StoredRate) → Nat →
    List (String × StoredRate) × Nat
  | [], cache, count => (cache, count)
  | (k, v) :: rest, cache, count =>
    match dictGet k cache with
    | some existing =>
      if existing.source = source ∧ existing.rate = v then
        saveCurrentRatesAux source nowIso rest cache count
      else
        saveCurrentRatesAux source nowIso rest
          (dictSet k { rate := v, updatedAt := nowIso, source := source } cache) (count + 1)
    | none =>
      saveCurrentRatesAux source nowIso rest
        (dictSet k { rate := v, updatedAt := nowIso, source := source } cache) (count + 1)

/-- Entry point of `save_current_rates`: the loop starts from `updated_count = 0`. -/
def saveCurrentRates (rates : List (String × ℚ)) (source nowIso : String)
    (cache : List (String × StoredRate)) : List (String × StoredRate) × Nat :=
  saveCurrentRatesAux source nowIso rates cache 0

/-- One record of the append-only `exchange_rates.json` history
(storage.py lines 57-65). -/
structure HistRecord : Type where
  id : String
  fromCurrency : String
  toCurrency : String
  rate : ℚ
  timestamp : String
  source : String
  createdAt : String
deriving DecidableEq

/-- `current_utc.replace(':', '').replace('-', '').replace('T', '_')`
(storage.py lines 54-55) applied to the `%Y-%m-%dT%H:%M:%SZ` UTC stamp. -/
def cleanUtcTimestamp (utc : String) : String :=
  replaceChar 'T' '_' (removeChar '-' (removeChar ':' utc))

/-- `record_id = f"{rate_key}_{...}"` (storage.py lines 54-55): the derived
history-record id.  It is a function of the currency-pair key and the UTC
timestamp truncated to seconds — the `source` argument of
`save_historical_record` does not enter the id. -/
def recordId (rateKey utc : String) : String :=
  rateKey ++ "_" ++ cleanUtcTimestamp utc

/-- `rate_key.split('_')[0]` (storage.py line 59). -/
def pairFromCurrency (rateKey : String) : String :=
  (splitOnChar '_' rateKey).headD ""

/-- `rate_key.split('_')[1]` (storage.py line 60). -/
def pairToCurrency (rateKey : String) : String :=
  (splitOnChar '_' rateKey).getD 1 ""

/-- The record dict built at storage.py lines 57-65. -/
def mkHistRecord (rateKey : String) (rateValue : ℚ)
    (source utc nowIso : String) : HistRecord :=
  { id := recordId rateKey utc
  , fromCurrency := pairFromCurrency rateKey
  , toCurrency := pairToCurrency rateKey
  , rate := rateValue
  , timestamp := utc
  , source := source
  , createdAt := nowIso }

/-- The loop of `save_historical_record` (storage.py lines 52-70): append a
record for each pair unless some record with the same derived id is already in
the (growing) list. -/
def saveHistAux (source nowIso utc : String) :
    List (String × ℚ) → List HistRecord → Nat → List HistRecord × Nat
  | [], hist, count => (hist, count)
  | (k, v) :: rest, hist, count =>
    if hist.any (fun r => r.id == recordId k utc) then
      saveHistAux source nowIso utc rest hist count
    else
      saveHistAux source nowIso utc rest
        (hist ++ [mkHistRecord k v source utc nowIso]) (count + 1)

/-- `RatesStorage.save_historical_record(rates, source)` (storage.py lines
40-75), with the pre-existing history and both call timestamps explicit. -/
def saveHistoricalRecord (rates : List (String × ℚ)) (source nowIso utc : String)
    (hist : List HistRecord) : List HistRecord × Nat :=
  saveHistAux source nowIso utc rates hist 0

/-! ## parser_service/updater.py — RatesUpdater.run_update -/

/-- Outcome of `client.fetch_rates()` for one source, as observed by
`run_update`: a rates mapping, an `ApiRequestError` (whose `str(e)` is the
carried message), or any other exception. -/
inductive FetchOutcome : Type where
  | ok (rates : List (String × ℚ))
  | apiError (msg : String)
  | otherError (msg : String)

/-- The durable state the updater drives: the `rates.json` cache and the
`exchange_rates.json` history. -/
structure ParserState : Type where
  ratesCache : List (String × StoredRate)
  history : List HistRecord
deriving DecidableEq

/-- The `update_stats` dict after the metadata merge (updater.py lines 33-39
and 80-84). -/
structure UpdateStats : Type where
  totalRates : Nat
  updatedRates : Nat
  historicalRecords : Nat
  errors : List String
  sourcesProcessed : List String
  success : Bool
  updatedAt : String
  sourcesCount : Nat
deriving DecidableEq

/-- The configured client names, `self.clients.keys()` (updater.py lines 20-23). -/
def updaterClients : List String := ["coingecko", "exchangerate"]

/-- Accumulator for the per-source loop of `run_update`. -/
structure RunAcc : Type where
  totalRates : Nat
  updatedRates : Nat
  historicalRecords : Nat
  errors : List String
  sourcesProcessed : List String
deriving DecidableEq

/-- The per-source loop of `run_update` (updater.py lines 41-77): unknown
sources and fetch failures append an error string and continue; successful
fetches are merged into the cache and the history before the next source is
processed. -/
def runUpdateAux (fetch : String → FetchOutcome) (nowIso utc : String) :
    List String → RunAcc → ParserState → RunAcc × ParserState
  | [], acc, st => (acc, st)
  | s :: rest, acc, st =>
    if updaterClients.contains s then
      match fetch s with
      | .ok rates =>
        let cacheRes := saveCurrentRates rates s nowIso st.ratesCache
        let histRes := saveHistoricalRecord rates s nowIso utc st.history
        runUpdateAux fetch nowIso utc rest
          { totalRates := acc.totalRates + rates.length
          , updatedRates := acc.updatedRates + cacheRes.2
          , historicalRecords := acc.historicalRecords + histRes.2
          , errors := acc.errors
          , sourcesProcessed := acc.sourcesProcessed ++ [s] }
          { ratesCache := cacheRes.1, history := histRes.1 }
      | .apiError m =>
        runUpdateAux fetch nowIso utc rest
          { acc with errors := acc.errors ++ [s ++ ": " ++ m] } st
      | .otherError m =>
        runUpdateAux fetch nowIso utc rest
          { acc with errors := acc.errors ++ [s ++ ": Unexpected error - " ++ m] } st
    else
      runUpdateAux fetch nowIso utc rest
        { acc with errors := acc.errors ++ ["Unknown source: " ++ s] } st

/-- `RatesUpdater.run_update(sources)` (updater.py lines 25-93): run the
per-source loop, then stamp the metadata; `success` is
`len(update_stats['errors']) == 0`. -/
def runUpdate (sources : List String) (fetch : String → FetchOutcome)
    (st : ParserState) (nowIso utc completedIso : String) :
    UpdateStats × ParserState :=
  let res := runUpdateAux fetch nowIso utc sources
    { totalRates := 0, updatedRates := 0, historicalRecords := 0
    , errors := [], sourcesProcessed := [] } st
  ( { totalRates := res.1.totalRates
    , updatedRates := res.1.updatedRates
    , historicalRecords := res.1.historicalRecords
    , errors := res.1.errors
    , sourcesProcessed := res.1.sourcesProcessed
    , success := res.1.errors.isEmpty
    , updatedAt := completedIso
    , sourcesCount := res.1.sourcesProcessed.length }
  , res.2 )

/-! ## parser_service/api_clients.py — BaseApiClient._make_request -/

/-- What one iteration of the retry loop observes for its HTTP request:
a parsed JSON body, a timeout, an HTTP error status (with the exception text),
another network error, or a 2xx response whose body fails to parse. -/
inductive AttemptOutcome : Type where
  | success (body : String)
  | timeout
  | httpError (status : Nat) (errText : String)
  | networkError (msg : String)
  | parseError

/-- Result of `_make_request`: the parsed body, an `ApiRequestError` message, or
the implicit `None` return when the `for` loop completes without iterating
(only possible when `MAX_RETRIES == 0`). -/
inductive ReqResult : Type where
  | ok (body : String)
  | apiError (msg : String)
  | noReturn
deriving DecidableEq

/-- The retry loop of `_make_request` (api_clients.py lines 27-65), unwound on
fuel (`fuel = MAX_RETRIES - attempt` at entry).  Returns the result, the list
of `time.sleep` delays performed, and the number of attempts made.
`attempt + 1 < maxRetries` is Python's `attempt < self.config.MAX_RETRIES - 1`. -/
def makeRequestAux (name : String) (maxRetries retryDelay : Nat)
    (outcomes : Nat → AttemptOutcome) : Nat → Nat → ReqResult × List Nat × Nat
  | _, 0 => (.noReturn, [], 0)
  | attempt, fuel + 1 =>
    match outcomes attempt with
    | .success body => (.ok body, [], 1)
    | .timeout =>
      if attempt + 1 < maxRetries then
        let r := makeRequestAux name maxRetries retryDelay outcomes (attempt + 1) fuel
        (r.1, retryDelay :: r.2.1, r.2.2 + 1)
      else
        (.apiError (name ++ ": Request timeout"), [], 1)
    | .httpError status errText =>
      if status = 429 then
        if attempt + 1 < maxRetries then
          let r := makeRequestAux name maxRetries retryDelay outcomes (attempt + 1) fuel
          (r.1, retryDelay * 2 :: r.2.1, r.2.2 + 1)
        else
          (.apiError (name ++ ": HTTP " ++ toString status ++ " - " ++ errText), [], 1)
      else
        (.apiError (name ++ ": HTTP " ++ toString status ++ " - " ++ errText), [], 1)
    | .networkError m =>
      if attempt + 1 < maxRetries then
        let r := makeRequestAux name maxRetries retryDelay outcomes (attempt + 1) fuel
        (r.1, retryDelay :: r.2.1, r.2.2 + 1)
      else
        (.apiError (name ++ ": Network error - " ++ m), [], 1)
    | .parseError => (.apiError (name ++ ": Invalid JSON response"), [], 1)

/-- `BaseApiClient._make_request(url, ...)` (api_clients.py lines 24-65):
`for attempt in range(MAX_RETRIES)` starting at attempt 0. -/
def makeRequest (name : String) (maxRetries retryDelay : Nat)
    (outcomes : Nat → AttemptOutcome) : ReqResult × List Nat × Nat :=
  makeRequestAux name maxRetries retryDelay outcomes 0 maxRetries

/-! ## infra/database.py — DatabaseManager.write_data -/

/-- The file system visible to `write_data`, path → serialized content. -/
abbrev FileSystem := List (String × String)

/-- `os.remove`-style deletion of a path binding. -/
def dictErase {α : Type} (k : String) : List (String × α) → List (String × α)
  | [] => []
  | (k₀, v₀) :: rest => if k₀ = k then rest else (k₀, v₀) :: dictErase k rest

/-- `self.data_dir` of the global `DatabaseManager()` instance (database.py
lines 27-31 and 246). -/
def dataDir : String := "data"

/-- `_get_file_path(filename)` (database.py lines 40-42). -/
def fullFilePath (filename : String) : String := dataDir ++ "/" ++ filename

/-- `temp_path = file_path + '.tmp'` (database.py line 93). -/
def tempFilePath (filename : String) : String := fullFilePath filename ++ ".tmp"

/-- Where, if anywhere, the body of `write_data` fails. -/
inductive WriteFail : Type where
  | noFail
  | atMakedirs
  | atTempWrite
  | atReplace
deriving DecidableEq

/-- What `write_data` raises: `DatabaseError` from the handler at database.py
line 104, or Python's `UnboundLocalError` when the handler itself dereferences
`temp_path` before line 93 ever ran. -/
inductive WriteError : Type where
  | unboundLocalError
  | databaseError (filename : String)
deriving DecidableEq

/-- `DatabaseManager.write_data(filename, data)` (database.py lines 73-104):
dump into `file_path + '.tmp'`, then `os.replace` it onto `file_path`; on an
exception, remove the temp file if it exists and raise `DatabaseError`.
If `os.makedirs` itself raises, `temp_path` is still unbound when the handler
reads it, so `UnboundLocalError` propagates instead.  The resulting file
system is returned together with the outcome. -/
def writeData (fs : FileSystem) (filename content : String) (fail : WriteFail) :
    Except WriteError Unit × FileSystem :=
  match fail with
  | .atMakedirs => (.error .unboundLocalError, fs)
  | .atTempWrite =>
    (.error (.databaseError filename), dictErase (tempFilePath filename) fs)
  | .atReplace =>
    (.error (.databaseError filename),
      dictErase (tempFilePath filename) (dictSet (tempFilePath filename) content fs))
  | .noFail =>
    let fsTemp := dictSet (tempFilePath filename) content fs
    (.ok (),
      dictSet (fullFilePath filename) content (dictErase (tempFilePath filename) fsTemp))

/-! ## Association-list lemmas -/

theorem dictGet_eq_none_of_not_mem {α : Type} {k : String} :
    ∀ {d : List (String × α)}, k ∉ d.map Prod.fst → dictGet k d = none := by
  intro d
  induction d with
  | nil => intro _; rfl
  | cons hd tl ih =>
    intro h
    obtain ⟨k₀, v₀⟩ := hd
    simp only [List.map_cons, List.mem_cons, not_or] at h
    have hne : k₀ ≠ k := fun hk => h.1 hk.symm
    simp only [dictGet, if_neg hne]
    exact ih h.2

theorem dictGet_dictSet_self {α : Type} (k : String) (v : α) (d : List (String × α)) :
    dictGet k (dictSet k v d) = some v := by
  induction d with
  | nil => simp [dictGet, dictSet]
  | cons hd tl ih =>
    obtain ⟨k₀, v₀⟩ := hd
    by_cases h : k₀ = k
    · subst h; simp [dictGet, dictSet]
    · simp [dictGet, dictSet, h, ih]

theorem dictGet_dictSet_ne {α : Type} {k k₀ : String} (h : k ≠ k₀) (v : α)
    (d : List (String × α)) : dictGet k₀ (dictSet k v d) = dictGet k₀ d := by
  induction d with
  | nil =>
    simp only [dictSet, dictGet, if_neg h]
  | cons hd tl ih =>
    obtain ⟨k₁, v₁⟩ := hd
    by_cases h₁ : k₁ = k
    · subst h₁
      simp only [dictSet, if_pos rfl, dictGet, if_neg h]
    · simp only [dictSet, if_neg h₁, dictGet]
      by_cases h₂ : k₁ = k₀
      · simp only [if_pos h₂]
      · simp only [if_neg h₂, ih]

theorem mem_keys_dictSet {α : Type} {k₀ k : String} {v : α} :
    ∀ {d : List (String × α)}, k₀ ∈ (dictSet k v d).map Prod.fst →
      k₀ ∈ d.map Prod.fst ∨ k₀ = k := by
  intro d
  induction d with
  | nil =>
    intro h
    simp only [dictSet, List.map_cons, List.map_nil, List.mem_singleton] at h
    exact Or.inr h
  | cons hd tl ih =>
    intro h
    obtain ⟨k₁, v₁⟩ := hd
    by_cases h₁ : k₁ = k
    · have hset : dictSet k v ((k₁, v₁) :: tl) = (k, v) :: tl := by
        simp [dictSet, h₁]
      rw [hset] at h
      simp only [List.map_cons, List.mem_cons] at h
      rcases h with h | h
      · exact Or.inr h
      · exact Or.inl (List.mem_cons_of_mem _ h)
    · simp only [dictSet, if_neg h₁, List.map_cons, List.mem_cons] at h
      rcases h with h | h
      · exact Or.inl (h ▸ List.mem_cons_self _ _)
      · rcases ih h with h | h
        · exact Or.inl (List.mem_cons_of_mem _ h)
        · exact Or.inr h

theorem keys_dictSet_nodup {α : Type} (k : String) (v : α) :
    ∀ {d : List (String × α)}, (d.map Prod.fst).Nodup →
      ((dictSet k v d).map Prod.fst).Nodup := by
  intro d
  induction d with
  | nil =>
    intro _
    simp [dictSet]
  | cons hd tl ih =>
    intro h
    obtain ⟨k₁, v₁⟩ := hd
    simp only [List.map_cons, List.nodup_cons] at h
    by_cases h₁ : k₁ = k
    · have hset : dictSet k v ((k₁, v₁) :: tl) = (k, v) :: tl := by
        simp [dictSet, h₁]
      rw [hset]
      simp only [List.map_cons, List.nodup_cons]
      exact ⟨h₁ ▸ h.1, h.2⟩
    · simp only [dictSet, if_neg h₁, List.map_cons, List.nodup_cons]
      refine ⟨fun hmem => ?_, ih h.2⟩
      rcases mem_keys_dictSet hmem with hm | hm
      · exact h.1 hm
      · exact h₁ hm

theorem dictGet_dictErase_self {α : Type} (k : String) :
    ∀ {d : List (String × α)}, (d.map Prod.fst).Nodup →
      dictGet k (dictErase k d) = none := by
  intro d
  induction d with
  | nil => intro _; rfl
  | cons hd tl ih =>
    intro h
    obtain ⟨k₀, v₀⟩ := hd
    simp only [List.map_cons, List.nodup_cons] at h
    by_cases h₀ : k₀ = k
    · have herase : dictErase k ((k₀, v₀) :: tl) = tl := by
        simp [dictErase, h₀]
      rw [herase]
      exact dictGet_eq_none_of_not_mem (h₀ ▸ h.1)
    · simp only [dictErase, if_neg h₀, dictGet, if_neg h₀]
      exact ih h.2

theorem dictGet_dictErase_ne {α : Type} {k k₀ : String} (h : k ≠ k₀) :
    ∀ (d : List (String × α)), dictGet k₀ (dictErase k d) = dictGet k₀ d := by
  intro d
  induction d with
  | nil => rfl
  | cons hd tl ih =>
    obtain ⟨k₁, v₁⟩ := hd
    by_cases h₁ : k₁ = k
    · have herase : dictErase k ((k₁, v₁) :: tl) = tl := by
        simp [dictErase, h₁]
      rw [herase]
      have hne : k₁ ≠ k₀ := by rw [h₁]; exact h
      simp only [dictGet, if_neg hne]
    · simp only [dictErase, if_neg h₁, dictGet]
      by_cases h₂ : k₁ = k₀
      · simp only [if_pos h₂]
      · simp only [if_neg h₂, ih]

/-! ## Rate Resolver lemmas -/

theorem getCurrency_ok_of_isRegistered {code : String} (h : isRegistered code = true) :
    ∃ c, getCurrency code = .ok c := by
  unfold isRegistered at h
  obtain ⟨c, hc⟩ := Option.isSome_iff_exists.mp h
  exact ⟨c, by simp [getCurrency, hc]⟩

theorem getCurrency_error_of_not_isRegistered {code : String}
    (h : isRegistered code = false) :
    getCurrency code = .error (.currencyNotFound (upperString code)) := by
  unfold isRegistered at h
  cases hd : dictGet (upperString code) currencyRegistry with
  | none => simp [getCurrency, hd]
  | some c => rw [hd] at h; simp at h

/-- The fresh-cache-hit path of `get_rate` (usecases.py lines 267-274):
a cached entry younger than the TTL is returned as-is and the stub fallback is
not consulted. -/
theorem getRate_fresh_cache_hit {fromCur toCur : String} {rates : RatesCache}
    {ttl now u : Int} {e : RateEntry}
    (hf : isRegistered fromCur = true) (ht : isRegistered toCur = true)
    (hne : upperString fromCur ≠ upperString toCur)
    (hcache : dictGet (upperString fromCur ++ "_" ++ upperString toCur) rates = some e)
    (hu : e.updatedAt = some u) (hfresh : now - u < ttl) :
    getRate fromCur toCur rates ttl now = .ok (e, rates) := by
  obtain ⟨cf, hcf⟩ := getCurrency_ok_of_isRegistered hf
  obtain ⟨ct, hct⟩ := getCurrency_ok_of_isRegistered ht
  simp [getRate, hcf, hct, hne, hcache, hu, hfresh]

/-- C1: on the code as written, the claim's scenario fails.  With an empty
cache (and any TTL and clock), `get_rate("USD", "EUR")` does not return the
stub rate 0.85: control reaches `return self._update_rate(...)`
(usecases.py line 278) and Python raises `AttributeError`, because the refresh
helper was defined as `_get_stub_rate` (line 280) and then shadowed by the
second `_get_stub_rate` (line 293), leaving no `_update_rate` on the class. -/
theorem getRate_usd_eur_cold_cache_raises (ttl now : Int) :
    getRate "USD" "EUR" [] ttl now = .error .attributeErrorNoUpdateRate := rfl

/-- Intent evidence for C1: the shadowed refresh body (usecases.py lines
280-292), had it been reachable as `_update_rate`, returns the stub entry
`{rate: 0.85, updated_at: now}` for (USD, EUR) and stores it in the cache —
exactly the behaviour the claim describes. -/
theorem updateRateShadowedBody_usd_eur (rates : RatesCache) (now : Int) :
    updateRateShadowedBody "USD" "EUR" rates now =
      .ok ({ rate := 0.85, updatedAt := some now, source := none },
        dictSet "USD_EUR" { rate := 0.85, updatedAt := some now, source := none } rates) := rfl

/-- Intent evidence for C1, second call: once a `USD_EUR` entry of age zero is
cached, `get_rate("USD","EUR")` returns it via the fresh-cache-hit path, never
reaching the refresh call. -/
theorem getRate_usd_eur_cached_repeat (rates : RatesCache) (ttl now : Int)
    (httl : 0 < ttl) :
    getRate "USD" "EUR"
      (dictSet "USD_EUR" { rate := 0.85, updatedAt := some now, source := none } rates)
      ttl now =
      .ok ({ rate := 0.85, updatedAt := some now, source := none },
        dictSet "USD_EUR" { rate := 0.85, updatedAt := some now, source := none } rates) := by
  have hget := dictGet_dictSet_self "USD_EUR"
    ({ rate := 0.85, updatedAt := some now, source := none } : RateEntry) rates
  exact getRate_fresh_cache_hit (by decide) (by decide) (by decide) hget rfl (by omega)

/-- C3: a cached entry whose age has reached the TTL is never served.
On the stale path `get_rate` transfers control to the refresh call
(`self._update_rate(...)`, usecases.py line 278) and in particular never
returns any value, let alone the stale entry unmodified. -/
theorem getRate_stale_never_returned (f t : String) (rates : RatesCache)
    (ttl now u : Int) (e : RateEntry)
    (hf : isRegistered f = true) (ht : isRegistered t = true)
    (hne : upperString f ≠ upperString t)
    (hcache : dictGet (upperString f ++ "_" ++ upperString t) rates = some e)
    (hu : e.updatedAt = some u)
    (hstale : ttl ≤ now - u) :
    getRate f t rates ttl now = updateRateCall ∧
    ∀ r, getRate f t rates ttl now ≠ .ok r := by
  obtain ⟨cf, hcf⟩ := getCurrency_ok_of_isRegistered hf
  obtain ⟨ct, hct⟩ := getCurrency_ok_of_isRegistered ht
  have hexpr : getRate f t rates ttl now = updateRateCall := by
    simp [getRate, hcf, hct, hne, hcache, hu, show ¬(now - u < ttl) from not_lt.mpr hstale]
  refine ⟨hexpr, fun r hr => ?_⟩
  rw [hexpr] at hr
  simp [updateRateCall] at hr

/-- Witness for the stale-entry claim: a `USD_EUR` entry written at time 0 and
queried at time 300 with TTL 300 is not passed through. -/
theorem getRate_stale_never_returned_witness :
    ((300 : Int) ≤ 300 - 0) ∧
    getRate "USD" "EUR"
      [("USD_EUR", { rate := 0.85, updatedAt := some 0, source := none })] 300 300 =
      updateRateCall ∧
    getRate "USD" "EUR"
      [("USD_EUR", { rate := 0.85, updatedAt := some 0, source := none })] 300 300 ≠
      .ok ({ rate := 0.85, updatedAt := some 0, source := none },
        [("USD_EUR", { rate := 0.85, updatedAt := some 0, source := none })]) :=
  ⟨by decide,
   (getRate_stale_never_returned "USD" "EUR"
      [("USD_EUR", { rate := 0.85, updatedAt := some 0, source := none })] 300 300 0
      { rate := 0.85, updatedAt := some 0, source := none }
      (by decide) (by decide) (by decide) rfl rfl (by decide)).1,
   (getRate_stale_never_returned "USD" "EUR"
      [("USD_EUR", { rate := 0.85, updatedAt := some 0, source := none })] 300 300 0
      { rate := 0.85, updatedAt := some 0, source := none }
      (by decide) (by decide) (by decide) rfl rfl (by decide)).2 _⟩

/-- C7: for every registered currency code `a`, whatever the cache contents,
TTL and clock, `get_rate(a, a)` returns `{rate: 1.0, updated_at: now}` and the
cache is neither consulted (the result is the same for every `rates`) nor
modified (it is returned unchanged). -/
theorem getRate_identity_registered (a : String) (rates : RatesCache)
    (ttl now : Int) (h : isRegistered a = true) :
    getRate a a rates ttl now =
      .ok ({ rate := 1, updatedAt := some now, source := none }, rates) := by
  obtain ⟨c, hc⟩ := getCurrency_ok_of_isRegistered h
  simp [getRate, hc]

/-- Witness for the identity claim at `a = "USD"` with a non-trivial cache. -/
theorem getRate_identity_registered_witness :
    isRegistered "USD" = true ∧
    getRate "USD" "USD"
      [("USD_EUR", { rate := 0.85, updatedAt := some 0, source := none })] 300 42 =
      .ok ({ rate := 1, updatedAt := some 42, source := none },
        [("USD_EUR", { rate := 0.85, updatedAt := some 0, source := none })]) :=
  ⟨by decide,
   getRate_identity_registered "USD"
     [("USD_EUR", { rate := 0.85, updatedAt := some 0, source := none })] 300 42 (by decide)⟩

/-- C10: `get_rate` validates both currency codes up front
(usecases.py lines 251-255), so an unregistered code is rejected with
`CurrencyNotFoundError` for every cache state, TTL and clock — in particular
before any cache lookup, before the identity shortcut (this covers
`from == to`), and before the fallback table could be consulted. -/
theorem getRate_unregistered_rejected (f t : String) (rates : RatesCache)
    (ttl now : Int) :
    (isRegistered f = false →
      getRate f t rates ttl now = .error (.currencyNotFound (upperString f))) ∧
    (isRegistered f = true → isRegistered t = false →
      getRate f t rates ttl now = .error (.currencyNotFound (upperString t))) := by
  constructor
  · intro hf
    simp [getRate, getCurrency_error_of_not_isRegistered hf]
  · intro hf ht
    obtain ⟨c, hc⟩ := getCurrency_ok_of_isRegistered hf
    simp [getRate, hc, getCurrency_error_of_not_isRegistered ht]

/-- Witness for the unregistered-code claim: code "XXX" is unregistered; the
`from == to` call `get_rate("XXX","XXX")` raises rather than returning 1.0,
and an unregistered target code is also rejected. -/
theorem getRate_unregistered_rejected_witness :
    isRegistered "XXX" = false ∧ isRegistered "USD" = true ∧
    getRate "XXX" "XXX"
      [("USD_EUR", { rate := 0.85, updatedAt := some 0, source := none })] 300 0 =
      .error (.currencyNotFound "XXX") ∧
    getRate "USD" "XXX" [] 300 0 = .error (.currencyNotFound "XXX") :=
  ⟨by decide, by decide,
   (getRate_unregistered_rejected "XXX" "XXX"
      [("USD_EUR", { rate := 0.85, updatedAt := some 0, source := none })] 300 0).1 (by decide),
   (getRate_unregistered_rejected "USD" "XXX" [] 300 0).2 (by decide) (by decide)⟩

/-! ## The stub fallback table has no one-directional pair (context for the
inversion-law claim): every `(A, B)` key it contains comes with an explicit
`(B, A)` key, so the situation "fallback provides `(A,B)` but no direct
`(B,A)` entry" never arises, and indeed no code path of
`ExchangeRateService` derives a rate as `1/r` from the inverse pair. -/

theorem sep_split_unique {sep : Char} :
    ∀ (zs xs ys ws : List Char), xs ++ sep :: ys = zs ++ sep :: ws →
      sep ∉ zs → sep ∉ ws → xs = zs ∧ ys = ws := by
  intro zs
  induction zs with
  | nil =>
    intro xs ys ws h _ hws
    cases xs with
    | nil =>
      simp only [List.nil_append, List.cons.injEq] at h
      exact ⟨rfl, h.2⟩
    | cons x xs₁ =>
      simp only [List.cons_append, List.nil_append, List.cons.injEq] at h
      exfalso
      apply hws
      rw [← h.2]
      exact List.mem_append_right _ (List.mem_cons_self _ _)
  | cons z zs₁ ih =>
    intro xs ys ws h hzs hws
    cases xs with
    | nil =>
      simp only [List.nil_append, List.cons_append, List.cons.injEq] at h
      exfalso
      apply hzs
      rw [h.1]
      exact List.mem_cons_self _ _
    | cons x xs₁ =>
      simp only [List.cons_append, List.cons.injEq] at h
      obtain ⟨hx, hrest⟩ := h
      have hzs₁ : sep ∉ zs₁ := fun hm => hzs (List.mem_cons_of_mem _ hm)
      obtain ⟨h1, h2⟩ := ih xs₁ ys ws hrest hzs₁ hws
      exact ⟨by rw [hx, h1], h2⟩

/-- A key of the form `f"{a}_{b}"` determines `a` and `b` whenever the
reference pair `(A, B)` is underscore-free (as every stub-table pair is). -/
theorem pair_key_eq (A B : String) {a b : String}
    (hA : ('_' : Char) ∉ A.data) (hB : ('_' : Char) ∉ B.data)
    (h : a ++ "_" ++ b = A ++ "_" ++ B) : a = A ∧ b = B := by
  have hdata : a.data ++ '_' :: b.data = A.data ++ '_' :: B.data := by
    have hcast := congrArg String.data h
    simpa [String.data_append] using hcast
  obtain ⟨h1, h2⟩ := sep_split_unique A.data a.data b.data B.data hdata hA hB
  exact ⟨String.ext h1, String.ext h2⟩

/-- For every pair of strings `(a, b)`: if the static stub table provides the
direct key `f"{a}_{b}"`, it also provides the inverse key `f"{b}_{a}"`.
Consequently the antecedent of the spec's inversion law — a fallback entry
`(A,B)` with no direct `(B,A)` entry — is unsatisfiable for this code. -/
theorem dictGet_isSome_iff {α : Type} (k : String) :
    ∀ (d : List (String × α)), (dictGet k d).isSome = true ↔ k ∈ d.map Prod.fst := by
  intro d
  induction d with
  | nil => simp [dictGet]
  | cons hd tl ih =>
    obtain ⟨k₀, v₀⟩ := hd
    simp only [dictGet, List.map_cons, List.mem_cons]
    by_cases h : k₀ = k
    · simp [h]
    · simp [h, Ne.symm h, ih]

theorem stubRates_has_inverse (a b : String) (now : Int)
    (h : (getStubRate a b now).isSome = true) :
    (getStubRate b a now).isSome = true := by
  unfold getStubRate at h ⊢
  rw [dictGet_isSome_iff] at h ⊢
  have hkeys : (stubRates now).map Prod.fst =
      ["USD_EUR", "EUR_USD", "USD_BTC", "BTC_USD", "USD_ETH",
       "ETH_USD", "USD_RUB", "RUB_USD", "EUR_BTC", "BTC_EUR"] := rfl
  rw [hkeys] at h ⊢
  simp only [List.mem_cons, List.not_mem_nil, or_false] at h
  rcases h with h | h | h | h | h | h | h | h | h | h
  · obtain ⟨ha, hb⟩ := pair_key_eq "USD" "EUR" (by decide) (by decide) h
    subst ha; subst hb; decide
  · obtain ⟨ha, hb⟩ := pair_key_eq "EUR" "USD" (by decide) (by decide) h
    subst ha; subst hb; decide
  · obtain ⟨ha, hb⟩ := pair_key_eq "USD" "BTC" (by decide) (by decide) h
    subst ha; subst hb; decide
  · obtain ⟨ha, hb⟩ := pair_key_eq "BTC" "USD" (by decide) (by decide) h
    subst ha; subst hb; decide
  · obtain ⟨ha, hb⟩ := pair_key_eq "USD" "ETH" (by decide) (by decide) h
    subst ha; subst hb; decide
  · obtain ⟨ha, hb⟩ := pair_key_eq "ETH" "USD" (by decide) (by decide) h
    subst ha; subst hb; decide
  · obtain ⟨ha, hb⟩ := pair_key_eq "USD" "RUB" (by decide) (by decide) h
    subst ha; subst hb; decide
  · obtain ⟨ha, hb⟩ := pair_key_eq "RUB" "USD" (by decide) (by decide) h
    subst ha; subst hb; decide
  · obtain ⟨ha, hb⟩ := pair_key_eq "EUR" "BTC" (by decide) (by decide) h
    subst ha; subst hb; decide
  · obtain ⟨ha, hb⟩ := pair_key_eq "BTC" "EUR" (by decide) (by decide) h
    subst ha; subst hb; decide

/-! ## History Log lemmas (storage.py save_historical_record) -/

theorem saveHistAux_extends (source nowIso utc : String) :
    ∀ (rs : List (String × ℚ)) (hist : List HistRecord) (count : Nat),
      ∃ new, (saveHistAux source nowIso utc rs hist count).1 = hist ++ new := by
  intro rs
  induction rs with
  | nil => intro hist count; exact ⟨[], by simp [saveHistAux]⟩
  | cons hd tl ih =>
    intro hist count
    obtain ⟨k, v⟩ := hd
    cases hc : hist.any (fun r => r.id == recordId k utc) with
    | true =>
      simp only [saveHistAux, hc, if_true]
      exact ih hist count
    | false =>
      simp only [saveHistAux, hc, Bool.false_eq_true, if_false]
      obtain ⟨new, hnew⟩ := ih (hist ++ [mkHistRecord k v source utc nowIso]) (count + 1)
      exact ⟨[mkHistRecord k v source utc nowIso] ++ new, by rw [hnew, List.append_assoc]⟩

theorem saveHistAux_covers (source nowIso utc : String) :
    ∀ (rs : List (String × ℚ)) (hist : List HistRecord) (count : Nat)
      (k : String) (v : ℚ), (k, v) ∈ rs →
      ∃ r ∈ (saveHistAux source nowIso utc rs hist count).1, r.id = recordId k utc := by
  intro rs
  induction rs with
  | nil => intro hist count k v hmem; simp at hmem
  | cons hd tl ih =>
    intro hist count k v hmem
    obtain ⟨k₀, v₀⟩ := hd
    rcases List.mem_cons.mp hmem with heq | hmem₁
    · obtain ⟨hk, hv⟩ := Prod.mk.injEq .. ▸ heq
      subst hk
      cases hc : hist.any (fun r => r.id == recordId k utc) with
      | true =>
        obtain ⟨r, hr, hrid⟩ := List.any_eq_true.mp hc
        have hrid' : r.id = recordId k utc := by
          exact beq_iff_eq.mp hrid
        simp only [saveHistAux, hc, if_true]
        obtain ⟨new, hnew⟩ := saveHistAux_extends source nowIso utc tl hist count
        exact ⟨r, by rw [hnew]; exact List.mem_append_left _ hr, hrid'⟩
      | false =>
        simp only [saveHistAux, hc, Bool.false_eq_true, if_false]
        obtain ⟨new, hnew⟩ := saveHistAux_extends source nowIso utc tl
          (hist ++ [mkHistRecord k v₀ source utc nowIso]) (count + 1)
        refine ⟨mkHistRecord k v₀ source utc nowIso, ?_, rfl⟩
        rw [hnew]
        exact List.mem_append_left _ (List.mem_append_right _ (List.mem_singleton.mpr rfl))
    · cases hc : hist.any (fun r => r.id == recordId k₀ utc) with
      | true =>
        simp only [saveHistAux, hc, if_true]
        exact ih hist count k v hmem₁
      | false =>
        simp only [saveHistAux, hc, Bool.false_eq_true, if_false]
        exact ih (hist ++ [mkHistRecord k₀ v₀ source utc nowIso]) (count + 1) k v hmem₁

theorem saveHistAux_skip_all (source nowIso utc : String) :
    ∀ (rs : List (String × ℚ)) (hist : List HistRecord) (count : Nat),
      (∀ k v, (k, v) ∈ rs → hist.any (fun r => r.id == recordId k utc) = true) →
      saveHistAux source nowIso utc rs hist count = (hist, count) := by
  intro rs
  induction rs with
  | nil => intro hist count _; rfl
  | cons hd tl ih =>
    intro hist count hall
    obtain ⟨k₀, v₀⟩ := hd
    have hc : hist.any (fun r => r.id == recordId k₀ utc) = true :=
      hall k₀ v₀ (List.mem_cons_self _ _)
    simp only [saveHistAux, hc, if_true]
    exact ih hist count fun k v hm => hall k v (List.mem_cons_of_mem _ hm)

theorem saveHistAux_nodup_ids (source nowIso utc : String) :
    ∀ (rs : List (String × ℚ)) (hist : List HistRecord) (count : Nat),
      (hist.map HistRecord.id).Nodup →
      (((saveHistAux source nowIso utc rs hist count).1).map HistRecord.id).Nodup := by
  intro rs
  induction rs with
  | nil => intro hist count h; simpa [saveHistAux] using h
  | cons hd tl ih =>
    intro hist count h
    obtain ⟨k₀, v₀⟩ := hd
    cases hc : hist.any (fun r => r.id == recordId k₀ utc) with
    | true =>
      simp only [saveHistAux, hc, if_true]
      exact ih hist count h
    | false =>
      simp only [saveHistAux, hc, Bool.false_eq_true, if_false]
      apply ih
      rw [List.map_append, List.map_singleton]
      rw [List.nodup_append]
      refine ⟨h, List.nodup_singleton _, ?_⟩
      intro x hx hx'
      rw [List.mem_singleton] at hx'
      subst hx'
      obtain ⟨r, hr, hrid⟩ := List.mem_map.mp hx
      have : hist.any (fun r => r.id == recordId k₀ utc) = true :=
        List.any_eq_true.mpr ⟨r, hr, beq_iff_eq.mpr (by rw [hrid]; rfl)⟩
      rw [hc] at this
      exact Bool.false_ne_true this

theorem saveHistAux_mem_structure (source nowIso utc : String) :
    ∀ (rs : List (String × ℚ)) (hist : List HistRecord) (count : Nat),
      ∀ r ∈ (saveHistAux source nowIso utc rs hist count).1,
        r ∈ hist ∨ ∃ p ∈ rs, r = mkHistRecord p.1 p.2 source utc nowIso := by
  intro rs
  induction rs with
  | nil =>
    intro hist count r hr
    exact Or.inl (by simpa [saveHistAux] using hr)
  | cons hd tl ih =>
    intro hist count r hr
    obtain ⟨k₀, v₀⟩ := hd
    cases hc : hist.any (fun x => x.id == recordId k₀ utc) with
    | true =>
      rw [show saveHistAux source nowIso utc ((k₀, v₀) :: tl) hist count =
            saveHistAux source nowIso utc tl hist count by
          simp only [saveHistAux, hc, if_true]] at hr
      rcases ih hist count r hr with h | ⟨p, hp, hpr⟩
      · exact Or.inl h
      · exact Or.inr ⟨p, List.mem_cons_of_mem _ hp, hpr⟩
    | false =>
      rw [show saveHistAux source nowIso utc ((k₀, v₀) :: tl) hist count =
            saveHistAux source nowIso utc tl
              (hist ++ [mkHistRecord k₀ v₀ source utc nowIso]) (count + 1) by
          simp only [saveHistAux, hc, Bool.false_eq_true, if_false]] at hr
      rcases ih (hist ++ [mkHistRecord k₀ v₀ source utc nowIso]) (count + 1) r hr
        with h | ⟨p, hp, hpr⟩
      · rcases List.mem_append.mp h with h | h
        · exact Or.inl h
        · exact Or.inr ⟨(k₀, v₀), List.mem_cons_self _ _, List.mem_singleton.mp h⟩
      · exact Or.inr ⟨p, List.mem_cons_of_mem _ hp, hpr⟩

/-- C4: `save_historical_record` derives every new record's id with the
deterministic function `recordId` of the pair key and the second-truncated UTC
timestamp (so identical pair/source/timestamp always yield the same id), a
repeated append with the same pairs and timestamp inserts nothing, the record
for a processed pair occurs exactly once, and no two records in the log ever
share an id after a run. -/
theorem save_historical_record_id_dedup
    (rates : List (String × ℚ)) (source iso₁ iso₂ utc : String)
    (hist : List HistRecord) (k : String) (v : ℚ)
    (hmem : (k, v) ∈ rates)
    (hnodup : (hist.map HistRecord.id).Nodup) :
    (∀ r ∈ (saveHistoricalRecord rates source iso₁ utc hist).1,
        r ∈ hist ∨ ∃ p ∈ rates, r = mkHistRecord p.1 p.2 source utc iso₁) ∧
    (((saveHistoricalRecord rates source iso₁ utc hist).1.map HistRecord.id).Nodup) ∧
    (((saveHistoricalRecord rates source iso₁ utc hist).1.map HistRecord.id).count
        (recordId k utc) = 1) ∧
    (saveHistoricalRecord rates source iso₂ utc
        (saveHistoricalRecord rates source iso₁ utc hist).1 =
      ((saveHistoricalRecord rates source iso₁ utc hist).1, 0)) := by
  have hstruct := saveHistAux_mem_structure source iso₁ utc rates hist 0
  have hnd := saveHistAux_nodup_ids source iso₁ utc rates hist 0 hnodup
  have hcover := saveHistAux_covers source iso₁ utc rates hist 0
  refine ⟨hstruct, hnd, ?_, ?_⟩
  · obtain ⟨r, hr, hrid⟩ := hcover k v hmem
    exact List.count_eq_one_of_mem hnd (List.mem_map.mpr ⟨r, hr, hrid⟩)
  · unfold saveHistoricalRecord
    apply saveHistAux_skip_all
    intro k₁ v₁ hm
    obtain ⟨r, hr, hrid⟩ := hcover k₁ v₁ hm
    exact List.any_eq_true.mpr ⟨r, hr, beq_iff_eq.mpr hrid⟩

/-- Witness for the history-dedup claim: one BTC_USD sample appended twice at
the same UTC second (with different wall-clock `created_at` stamps) yields a
single record with the derived id. -/
theorem save_historical_record_id_dedup_witness :
    (("BTC_USD", (5 : ℚ)) ∈ [("BTC_USD", (5 : ℚ))]) ∧
    ((([] : List HistRecord).map HistRecord.id).Nodup) ∧
    (((saveHistoricalRecord [("BTC_USD", 5)] "coingecko" "i1"
        "2026-10-12T08:15:30Z" []).1.map HistRecord.id).count
        (recordId "BTC_USD" "2026-10-12T08:15:30Z") = 1) ∧
    (saveHistoricalRecord [("BTC_USD", 5)] "coingecko" "i2" "2026-10-12T08:15:30Z"
        (saveHistoricalRecord [("BTC_USD", 5)] "coingecko" "i1"
          "2026-10-12T08:15:30Z" []).1 =
      ((saveHistoricalRecord [("BTC_USD", 5)] "coingecko" "i1"
          "2026-10-12T08:15:30Z" []).1, 0)) :=
  ⟨List.mem_singleton.mpr rfl, List.nodup_nil,
   (save_historical_record_id_dedup [("BTC_USD", 5)] "coingecko" "i1" "i2"
      "2026-10-12T08:15:30Z" [] "BTC_USD" 5
      (List.mem_singleton.mpr rfl) List.nodup_nil).2.2.1,
   (save_historical_record_id_dedup [("BTC_USD", 5)] "coingecko" "i1" "i2"
      "2026-10-12T08:15:30Z" [] "BTC_USD" 5
      (List.mem_singleton.mpr rfl) List.nodup_nil).2.2.2⟩

/-! ## Rate Cache Store merge lemmas (storage.py save_current_rates) -/

theorem saveCurrentRatesAux_preserves (source nowIso : String) :
    ∀ (rs : List (String × ℚ)) (cache : List (String × StoredRate)) (count : Nat)
      (k : String), k ∉ rs.map Prod.fst →
      dictGet k (saveCurrentRatesAux source nowIso rs cache count).1 = dictGet k cache := by
  intro rs
  induction rs with
  | nil => intro cache count k _; rfl
  | cons hd tl ih =>
    intro cache count k hk
    obtain ⟨k₀, v₀⟩ := hd
    simp only [List.map_cons, List.mem_cons, not_or] at hk
    have hne : k₀ ≠ k := fun h => hk.1 h.symm
    cases hc : dictGet k₀ cache with
    | some existing =>
      by_cases hmatch : existing.source = source ∧ existing.rate = v₀
      · simp only [saveCurrentRatesAux, hc, if_pos hmatch]
        exact ih cache count k hk.2
      · simp only [saveCurrentRatesAux, hc, if_neg hmatch]
        rw [ih (dictSet k₀ { rate := v₀, updatedAt := nowIso, source := source } cache)
          (count + 1) k hk.2]
        exact dictGet_dictSet_ne hne _ cache
    | none =>
      simp only [saveCurrentRatesAux, hc]
      rw [ih (dictSet k₀ { rate := v₀, updatedAt := nowIso, source := source } cache)
        (count + 1) k hk.2]
      exact dictGet_dictSet_ne hne _ cache

theorem saveCurrentRatesAux_writes (source nowIso : String) :
    ∀ (rs : List (String × ℚ)) (cache : List (String × StoredRate)) (count : Nat)
      (k : String) (v : ℚ), (k, v) ∈ rs → (rs.map Prod.fst).Nodup →
      ∃ e, dictGet k (saveCurrentRatesAux source nowIso rs cache count).1 = some e ∧
        e.rate = v ∧ e.source = source := by
  intro rs
  induction rs with
  | nil => intro cache count k v hmem _; simp at hmem
  | cons hd tl ih =>
    intro cache count k v hmem hnd
    obtain ⟨k₀, v₀⟩ := hd
    simp only [List.map_cons, List.nodup_cons] at hnd
    rcases List.mem_cons.mp hmem with heq | hmem₁
    · obtain ⟨hk, hv⟩ := Prod.mk.injEq .. ▸ heq
      subst hk
      subst hv
      cases hc : dictGet k cache with
      | some existing =>
        by_cases hmatch : existing.source = source ∧ existing.rate = v
        · refine ⟨existing, ?_, hmatch.2, hmatch.1⟩
          simp only [saveCurrentRatesAux, hc, if_pos hmatch]
          rw [saveCurrentRatesAux_preserves source nowIso tl cache count k hnd.1]
          exact hc
        · refine ⟨{ rate := v, updatedAt := nowIso, source := source }, ?_, rfl, rfl⟩
          simp only [saveCurrentRatesAux, hc, if_neg hmatch]
          rw [saveCurrentRatesAux_preserves source nowIso tl _ (count + 1) k hnd.1]
          exact dictGet_dictSet_self k _ cache
      | none =>
        refine ⟨{ rate := v, updatedAt := nowIso, source := source }, ?_, rfl, rfl⟩
        simp only [saveCurrentRatesAux, hc]
        rw [saveCurrentRatesAux_preserves source nowIso tl _ (count + 1) k hnd.1]
        exact dictGet_dictSet_self k _ cache
    · cases hc : dictGet k₀ cache with
      | some existing =>
        by_cases hmatch : existing.source = source ∧ existing.rate = v₀
        · simp only [saveCurrentRatesAux, hc, if_pos hmatch]
          exact ih cache count k v hmem₁ hnd.2
        · simp only [saveCurrentRatesAux, hc, if_neg hmatch]
          exact ih _ (count + 1) k v hmem₁ hnd.2
      | none =>
        simp only [saveCurrentRatesAux, hc]
        exact ih _ (count + 1) k v hmem₁ hnd.2

/-! ## Update Coordinator (updater.py run_update) -/

/-- Full evaluation of `run_update([: S1, S2])` when S1 and S2 are configured
clients, S1's fetch succeeds with `r1` and S2's fetch raises `ApiRequestError`:
S1 is processed and durably merged before S2 is even attempted, S2 contributes
exactly its error string, and the run completes. -/
theorem run_update_two_source_eval
    (fetch : String → FetchOutcome) (st₀ : ParserState)
    (nowIso utc completedIso : String) (s1 s2 m : String)
    (r1 : List (String × ℚ))
    (hs1 : updaterClients.contains s1 = true)
    (hs2 : updaterClients.contains s2 = true)
    (hf1 : fetch s1 = .ok r1)
    (hf2 : fetch s2 = .apiError m) :
    runUpdate [s1, s2] fetch st₀ nowIso utc completedIso =
      ( { totalRates := r1.length
        , updatedRates := (saveCurrentRates r1 s1 nowIso st₀.ratesCache).2
        , historicalRecords := (saveHistoricalRecord r1 s1 nowIso utc st₀.history).2
        , errors := [s2 ++ ": " ++ m]
        , sourcesProcessed := [s1]
        , success := false
        , updatedAt := completedIso
        , sourcesCount := 1 }
      , { ratesCache := (saveCurrentRates r1 s1 nowIso st₀.ratesCache).1
        , history := (saveHistoricalRecord r1 s1 nowIso utc st₀.history).1 } ) := by
  have hm1 : s1 ∈ updaterClients := by simpa using hs1
  have hm2 : s2 ∈ updaterClients := by simpa using hs2
  simp [runUpdate, runUpdateAux, hf1, hf2, hm1, hm2]

/-- C5: `run_update` reports `success = true` exactly when its per-source error
list is empty (for every source list, fetch behaviour and starting state), and
in the scenario "S1 succeeds, S2 fails with ApiRequestError" the report is
`success = false` with the single error string `"S2: <message>"`, S1 is still
fully processed, and every rate S1 fetched is durably present in the cache with
S1 recorded as its source — a source failure never aborts the run or rolls back
earlier sources. -/
theorem run_update_partial_success
    (sources : List String) (fetch : String → FetchOutcome) (st st₀ : ParserState)
    (nowIso utc completedIso : String) (s1 s2 m : String)
    (r1 : List (String × ℚ))
    (hs1 : updaterClients.contains s1 = true)
    (hs2 : updaterClients.contains s2 = true)
    (hf1 : fetch s1 = .ok r1)
    (hf2 : fetch s2 = .apiError m)
    (hnd : (r1.map Prod.fst).Nodup) :
    ((runUpdate sources fetch st nowIso utc completedIso).1.success = true ↔
      (runUpdate sources fetch st nowIso utc completedIso).1.errors = []) ∧
    ((runUpdate [s1, s2] fetch st₀ nowIso utc completedIso).1.success = false ∧
     (runUpdate [s1, s2] fetch st₀ nowIso utc completedIso).1.errors = [s2 ++ ": " ++ m] ∧
     (runUpdate [s1, s2] fetch st₀ nowIso utc completedIso).1.sourcesProcessed = [s1] ∧
     ∀ p ∈ r1, ∃ e,
       dictGet p.1 (runUpdate [s1, s2] fetch st₀ nowIso utc completedIso).2.ratesCache =
         some e ∧ e.rate = p.2 ∧ e.source = s1) := by
  constructor
  · simp only [runUpdate]
    exact List.isEmpty_iff
  · have heval := run_update_two_source_eval fetch st₀ nowIso utc completedIso
      s1 s2 m r1 hs1 hs2 hf1 hf2
    rw [heval]
    refine ⟨rfl, rfl, rfl, ?_⟩
    intro p hp
    exact saveCurrentRatesAux_writes s1 nowIso r1 st₀.ratesCache 0 p.1 p.2 hp hnd

/-- Witness for the partial-success claim: coingecko succeeds with one BTC_USD
rate, exchangerate fails with a timeout; the run reports the single error,
keeps `success = false`, and the BTC_USD rate is in the cache. -/
theorem run_update_partial_success_witness :
    (runUpdate ["coingecko", "exchangerate"]
      (fun s => if s = "coingecko" then FetchOutcome.ok [("BTC_USD", 59337)]
        else FetchOutcome.apiError "timeout")
      { ratesCache := [], history := [] } "t1" "t2" "t3").1.success = false ∧
    (runUpdate ["coingecko", "exchangerate"]
      (fun s => if s = "coingecko" then FetchOutcome.ok [("BTC_USD", 59337)]
        else FetchOutcome.apiError "timeout")
      { ratesCache := [], history := [] } "t1" "t2" "t3").1.errors =
      ["exchangerate: timeout"] ∧
    ∃ e, dictGet "BTC_USD"
        (runUpdate ["coingecko", "exchangerate"]
          (fun s => if s = "coingecko" then FetchOutcome.ok [("BTC_USD", 59337)]
            else FetchOutcome.apiError "timeout")
          { ratesCache := [], history := [] } "t1" "t2" "t3").2.ratesCache = some e ∧
      e.rate = 59337 ∧ e.source = "coingecko" := by
  have h := run_update_partial_success ["coingecko", "exchangerate"]
    (fun s => if s = "coingecko" then FetchOutcome.ok [("BTC_USD", 59337)]
      else FetchOutcome.apiError "timeout")
    { ratesCache := [], history := [] } { ratesCache := [], history := [] }
    "t1" "t2" "t3" "coingecko" "exchangerate" "timeout" [("BTC_USD", 59337)]
    rfl rfl rfl rfl (by simp)
  exact ⟨h.2.1, h.2.2.1, h.2.2.2.2 ("BTC_USD", 59337) (List.mem_singleton.mpr rfl)⟩

/-- C9: `run_update(["unknown_source"])` completes (rather than aborting),
reporting `success = false`, exactly the error string
`"Unknown source: unknown_source"`, zero rates fetched, and an unchanged
durable state — for every fetch behaviour, starting state and timestamps. -/
theorem run_update_unknown_source (fetch : String → FetchOutcome)
    (st : ParserState) (nowIso utc completedIso : String) :
    (runUpdate ["unknown_source"] fetch st nowIso utc completedIso).1.success = false ∧
    (runUpdate ["unknown_source"] fetch st nowIso utc completedIso).1.errors =
      ["Unknown source: unknown_source"] ∧
    (runUpdate ["unknown_source"] fetch st nowIso utc completedIso).1.totalRates = 0 ∧
    (runUpdate ["unknown_source"] fetch st nowIso utc completedIso).2 = st := by
  have hm : "unknown_source" ∉ updaterClients := by decide
  simp [runUpdate, runUpdateAux, hm]

/-! ## Durable store (database.py write_data) -/

theorem fullFilePath_ne_tempFilePath (filename : String) :
    fullFilePath filename ≠ tempFilePath filename := by
  intro h
  have hlen := congrArg String.length h
  rw [tempFilePath, String.length_append] at hlen
  have h4 : (".tmp" : String).length = 4 := rfl
  rw [h4] at hlen
  omega

/-- C6: `write_data` is all-or-nothing.  Starting from a store with unique
paths and no leftover temp file: a successful call installs the content at the
durable path and leaves no temp file behind, while a call failing at any stage
(directory creation, temp-file write, or the atomic replace) returns an error
to the caller, leaves the durable path bitwise unchanged, and leaves no temp
file behind. -/
theorem write_data_all_or_nothing (fs : FileSystem) (filename content : String)
    (fail : WriteFail) (hfs : (fs.map Prod.fst).Nodup)
    (hclean : dictGet (tempFilePath filename) fs = none) :
    (fail = .noFail →
      (writeData fs filename content fail).1 = .ok () ∧
      dictGet (fullFilePath filename) (writeData fs filename content fail).2 =
        some content ∧
      dictGet (tempFilePath filename) (writeData fs filename content fail).2 = none) ∧
    (fail ≠ .noFail →
      (∃ e, (writeData fs filename content fail).1 = .error e) ∧
      dictGet (fullFilePath filename) (writeData fs filename content fail).2 =
        dictGet (fullFilePath filename) fs ∧
      dictGet (tempFilePath filename) (writeData fs filename content fail).2 = none) := by
  have hne : fullFilePath filename ≠ tempFilePath filename :=
    fullFilePath_ne_tempFilePath filename
  cases fail with
  | noFail =>
    refine ⟨fun _ => ⟨rfl, ?_, ?_⟩, fun h => absurd rfl h⟩
    · exact dictGet_dictSet_self _ _ _
    · rw [show (writeData fs filename content .noFail).2 =
          dictSet (fullFilePath filename) content
            (dictErase (tempFilePath filename)
              (dictSet (tempFilePath filename) content fs)) from rfl]
      rw [dictGet_dictSet_ne hne]
      exact dictGet_dictErase_self _ (keys_dictSet_nodup _ _ hfs)
  | atMakedirs =>
    refine ⟨fun h => by exact absurd h (by simp), fun _ => ⟨⟨.unboundLocalError, rfl⟩, rfl, hclean⟩⟩
  | atTempWrite =>
    refine ⟨fun h => by exact absurd h (by simp),
      fun _ => ⟨⟨.databaseError filename, rfl⟩, ?_, ?_⟩⟩
    · exact dictGet_dictErase_ne (fun hh => hne hh.symm) fs
    · exact dictGet_dictErase_self _ hfs
  | atReplace =>
    refine ⟨fun h => by exact absurd h (by simp),
      fun _ => ⟨⟨.databaseError filename, rfl⟩, ?_, ?_⟩⟩
    · rw [show (writeData fs filename content .atReplace).2 =
          dictErase (tempFilePath filename)
            (dictSet (tempFilePath filename) content fs) from rfl]
      rw [dictGet_dictErase_ne (fun hh => hne hh.symm)]
      exact dictGet_dictSet_ne (Ne.symm hne) _ fs
    · exact dictGet_dictErase_self _ (keys_dictSet_nodup _ _ hfs)

/-- Witness for the all-or-nothing claim: a store holding one old
`data/rates.json`; writing succeeds and replaces it, while a failure during
the replace step keeps the old content and no temp file. -/
theorem write_data_all_or_nothing_witness :
    ((writeData [("data/rates.json", "old")] "rates.json" "new" .noFail).1 = .ok () ∧
     dictGet (fullFilePath "rates.json")
       (writeData [("data/rates.json", "old")] "rates.json" "new" .noFail).2 =
       some "new" ∧
     dictGet (tempFilePath "rates.json")
       (writeData [("data/rates.json", "old")] "rates.json" "new" .noFail).2 = none) ∧
    ((∃ e, (writeData [("data/rates.json", "old")] "rates.json" "new" .atReplace).1 =
        .error e) ∧
     dictGet (fullFilePath "rates.json")
       (writeData [("data/rates.json", "old")] "rates.json" "new" .atReplace).2 =
       dictGet (fullFilePath "rates.json") [("data/rates.json", "old")] ∧
     dictGet (tempFilePath "rates.json")
       (writeData [("data/rates.json", "old")] "rates.json" "new" .atReplace).2 = none) :=
  ⟨(write_data_all_or_nothing [("data/rates.json", "old")] "rates.json" "new" .noFail
      (by decide) rfl).1 rfl,
   (write_data_all_or_nothing [("data/rates.json", "old")] "rates.json" "new" .atReplace
      (by decide) rfl).2 (by decide)⟩

/-! ## Source Client retry policy (api_clients.py _make_request) -/

theorem makeRequestAux_attempts_le (name : String) (maxRetries retryDelay : Nat)
    (outcomes : Nat → AttemptOutcome) :
    ∀ (fuel attempt : Nat),
      (makeRequestAux name maxRetries retryDelay outcomes attempt fuel).2.2 ≤ fuel := by
  intro fuel
  induction fuel with
  | zero => intro attempt; simp [makeRequestAux]
  | succ n ih =>
    intro attempt
    simp only [makeRequestAux]
    cases outcomes attempt with
    | success body => simp
    | timeout =>
      by_cases hc : attempt + 1 < maxRetries
      · simp only [if_pos hc]
        have := ih (attempt + 1)
        omega
      · simp only [if_neg hc]
        omega
    | httpError status errText =>
      by_cases h429 : status = 429
      · simp only [if_pos h429]
        by_cases hc : attempt + 1 < maxRetries
        · simp only [if_pos hc]
          have := ih (attempt + 1)
          omega
        · simp only [if_neg hc]
          omega
      · simp only [if_neg h429]
        omega
    | networkError m =>
      by_cases hc : attempt + 1 < maxRetries
      · simp only [if_pos hc]
        have := ih (attempt + 1)
        omega
      · simp only [if_neg hc]
        omega
    | parseError => simp

theorem makeRequestAux_ne_noReturn (name : String) (maxRetries retryDelay : Nat)
    (outcomes : Nat → AttemptOutcome) :
    ∀ (fuel attempt : Nat), attempt + fuel = maxRetries → 0 < fuel →
      (makeRequestAux name maxRetries retryDelay outcomes attempt fuel).1 ≠ .noReturn := by
  intro fuel
  induction fuel with
  | zero => intro attempt _ hpos; exact absurd hpos (lt_irrefl 0)
  | succ n ih =>
    intro attempt hsum _
    simp only [makeRequestAux]
    cases outcomes attempt with
    | success body => simp
    | timeout =>
      by_cases hc : attempt + 1 < maxRetries
      · simp only [if_pos hc]
        have hn : 0 < n := by omega
        simpa using ih (attempt + 1) (by omega) hn
      · simp only [if_neg hc]
        simp
    | httpError status errText =>
      by_cases h429 : status = 429
      · simp only [if_pos h429]
        by_cases hc : attempt + 1 < maxRetries
        · simp only [if_pos hc]
          have hn : 0 < n := by omega
          simpa using ih (attempt + 1) (by omega) hn
        · simp only [if_neg hc]
          simp
      · simp only [if_neg h429]
        simp
    | networkError m =>
      by_cases hc : attempt + 1 < maxRetries
      · simp only [if_pos hc]
        have hn : 0 < n := by omega
        simpa using ih (attempt + 1) (by omega) hn
      · simp only [if_neg hc]
        simp
    | parseError => simp

/-- C8: the retry policy of `_make_request`.  (1) At most `MAX_RETRIES`
attempts are ever made.  (2) A timeout on a non-final attempt sleeps
`RETRY_DELAY` seconds and the loop proceeds to the next attempt; (3) a timeout
with no retry budget left fails with the timeout `ApiRequestError`.  (4) An
HTTP 429 on a non-final attempt sleeps `2 × RETRY_DELAY` and retries (still
within the same `MAX_RETRIES` bound); (5) any other HTTP error status fails
immediately — one attempt, no sleep — with the status code embedded in the
error message.  (6) A malformed (non-JSON) body fails immediately with no
retry.  (7) With at least one configured attempt, the call always ends in a
returned body or an `ApiRequestError`, never in the fall-through `None`. -/
theorem make_request_retry_policy (name : String) (maxRetries retryDelay : Nat)
    (outcomes : Nat → AttemptOutcome) :
    ((makeRequest name maxRetries retryDelay outcomes).2.2 ≤ maxRetries) ∧
    (∀ attempt fuel, outcomes attempt = .timeout → attempt + 1 < maxRetries →
      makeRequestAux name maxRetries retryDelay outcomes attempt (fuel + 1) =
        ((makeRequestAux name maxRetries retryDelay outcomes (attempt + 1) fuel).1,
         retryDelay ::
           (makeRequestAux name maxRetries retryDelay outcomes (attempt + 1) fuel).2.1,
         (makeRequestAux name maxRetries retryDelay outcomes (attempt + 1) fuel).2.2 + 1)) ∧
    (∀ attempt fuel, outcomes attempt = .timeout → ¬(attempt + 1 < maxRetries) →
      makeRequestAux name maxRetries retryDelay outcomes attempt (fuel + 1) =
        (.apiError (name ++ ": Request timeout"), [], 1)) ∧
    (∀ attempt fuel errText, outcomes attempt = .httpError 429 errText →
      attempt + 1 < maxRetries →
      makeRequestAux name maxRetries retryDelay outcomes attempt (fuel + 1) =
        ((makeRequestAux name maxRetries retryDelay outcomes (attempt + 1) fuel).1,
         retryDelay * 2 ::
           (makeRequestAux name maxRetries retryDelay outcomes (attempt + 1) fuel).2.1,
         (makeRequestAux name maxRetries retryDelay outcomes (attempt + 1) fuel).2.2 + 1)) ∧
    (∀ attempt fuel status errText, outcomes attempt = .httpError status errText →
      status ≠ 429 →
      makeRequestAux name maxRetries retryDelay outcomes attempt (fuel + 1) =
        (.apiError (name ++ ": HTTP " ++ toString status ++ " - " ++ errText), [], 1)) ∧
    (∀ attempt fuel, outcomes attempt = .parseError →
      makeRequestAux name maxRetries retryDelay outcomes attempt (fuel + 1) =
        (.apiError (name ++ ": Invalid JSON response"), [], 1)) ∧
    (0 < maxRetries → (makeRequest name maxRetries retryDelay outcomes).1 ≠ .noReturn) := by
  refine ⟨makeRequestAux_attempts_le name maxRetries retryDelay outcomes maxRetries 0,
    ?_, ?_, ?_, ?_, ?_, ?_⟩
  · intro attempt fuel ho hc
    simp only [makeRequestAux, ho, if_pos hc]
  · intro attempt fuel ho hc
    simp only [makeRequestAux, ho, if_neg hc]
  · intro attempt fuel errText ho hc
    simp [makeRequestAux, ho, hc]
  · intro attempt fuel status errText ho hs
    simp only [makeRequestAux, ho, if_neg hs]
  · intro attempt fuel ho
    simp only [makeRequestAux, ho]
  · intro hpos
    exact makeRequestAux_ne_noReturn name maxRetries retryDelay outcomes maxRetries 0
      (by omega) hpos

/-- Witness for the retry-policy claim with `MAX_RETRIES = 3`,
`RETRY_DELAY = 2` (the config defaults): each clause applied at a concrete
attempt and outcome stream. -/
theorem make_request_retry_policy_witness :
    ((makeRequest "C" 3 2 (fun _ => .timeout)).2.2 ≤ 3) ∧
    (makeRequestAux "C" 3 2 (fun _ => .timeout) 0 3 =
      ((makeRequestAux "C" 3 2 (fun _ => .timeout) 1 2).1,
       2 :: (makeRequestAux "C" 3 2 (fun _ => .timeout) 1 2).2.1,
       (makeRequestAux "C" 3 2 (fun _ => .timeout) 1 2).2.2 + 1)) ∧
    (makeRequestAux "C" 3 2 (fun _ => .timeout) 2 1 =
      (.apiError "C: Request timeout", [], 1)) ∧
    (makeRequestAux "C" 3 2 (fun _ => .httpError 429 "x") 0 3 =
      ((makeRequestAux "C" 3 2 (fun _ => .httpError 429 "x") 1 2).1,
       4 :: (makeRequestAux "C" 3 2 (fun _ => .httpError 429 "x") 1 2).2.1,
       (makeRequestAux "C" 3 2 (fun _ => .httpError 429 "x") 1 2).2.2 + 1)) ∧
    (makeRequestAux "C" 3 2 (fun _ => .httpError 500 "boom") 0 3 =
      (.apiError "C: HTTP 500 - boom", [], 1)) ∧
    (makeRequestAux "C" 3 2 (fun _ => .parseError) 0 3 =
      (.apiError "C: Invalid JSON response", [], 1)) ∧
    ((makeRequest "C" 3 2 (fun _ => .timeout)).1 ≠ .noReturn) :=
  ⟨(make_request_retry_policy "C" 3 2 (fun _ => .timeout)).1,
   (make_request_retry_policy "C" 3 2 (fun _ => .timeout)).2.1 0 2 rfl (by omega),
   (make_request_retry_policy "C" 3 2 (fun _ => .timeout)).2.2.1 2 0 rfl (by omega),
   (make_request_retry_policy "C" 3 2 (fun _ => .httpError 429 "x")).2.2.2.1 0 2 "x"
     rfl (by omega),
   (make_request_retry_policy "C" 3 2 (fun _ => .httpError 500 "boom")).2.2.2.2.1 0 2
     500 "boom" rfl (by omega),
   (make_request_retry_policy "C" 3 2 (fun _ => .parseError)).2.2.2.2.2.1 0 2 rfl,
   (make_request_retry_policy "C" 3 2 (fun _ => .timeout)).2.2.2.2.2.2 (by omega)⟩

end ValutaTrade
